import Mathlib

/-!
Verification of the PyRTL interchange layer (pyrtl/inputoutput.py): the BLIF
importer (cover recognition, input/output extraction, flip-flop extraction,
clock elision), the Verilog identifier sanitizer, the Verilog code generator
and the testbench emitter.  Python functions are embedded shallowly: pure
dispatch becomes Lean functions, the mutable importer state (clock-name set,
block contents) becomes explicit state passing.
-/

namespace PyRTL

/-- Gate shapes hard-coded in the elif chain of extract_cover
(inputoutput.py lines 147-189). -/
inductive GateKind
  | const0
  | const1
  | buf
  | notg
  | andg
  | norg
  | org
  | xorg
  | mux
  | muxnor
deriving DecidableEq

/-- Result of dispatching on a cover list in extract_cover: a wiring realizing
a fixed gate, a clock-alias marker (the cover 1 1 branch when one side is a
known clock), or the unknown-cover failure. -/
inductive CoverResult
  | gate (g : GateKind)
  | clockAlias (w : String)
  | unrecognized
deriving DecidableEq

/-- Dispatch of extract_cover (inputoutput.py lines 147-189) on the parsed
cover list, given the current clock-name set clk_set and the signal name list
nio (inputs followed by one output).  Each branch mirrors one elif of the
source; only the cover 1 1 branch consults clk_set and nio. -/
def extract_cover (clk_set : List String) (nio : List String)
    (cover : List String) : CoverResult :=
  if cover = [] then .gate .const0
  else if cover = ["1"] then .gate .const1
  else if cover = ["1", "1"] then
    if clk_set.contains (nio.getD 1 "") then .clockAlias (nio.getD 0 "")
    else if clk_set.contains (nio.getD 0 "") then .clockAlias (nio.getD 1 "")
    else .gate .buf
  else if cover = ["0", "1"] then .gate .notg
  else if cover = ["11", "1"] then .gate .andg
  else if cover = ["00", "1"] then .gate .norg
  else if cover = ["1-", "1", "-1", "1"] then .gate .org
  else if cover = ["10", "1", "01", "1"] then .gate .xorg
  else if cover = ["1-0", "1", "-11", "1"] then .gate .mux
  else if cover = ["-00", "1", "0-0", "1"] then .gate .muxnor
  else .unrecognized

/-- Number of input signals of each recognized gate (the named signals are the
inputs followed by the single output). -/
def gateArity : GateKind → Nat
  | .const0 => 0
  | .const1 => 0
  | .buf => 1
  | .notg => 1
  | .andg => 2
  | .norg => 2
  | .org => 2
  | .xorg => 2
  | .mux => 3
  | .muxnor => 3

/-- Boolean function of the wiring each extract_cover branch builds over the
named input signals, read off the expression on the right of the source's
output_wire assignment (for example the mux branch builds
(in0 and not in2) or (in1 and in2)). -/
def gateEval : GateKind → List Bool → Bool
  | .const0, _ => false
  | .const1, _ => true
  | .buf, l => l.getD 0 false
  | .notg, l => !(l.getD 0 false)
  | .andg, l => l.getD 0 false && l.getD 1 false
  | .norg, l => !(l.getD 0 false || l.getD 1 false)
  | .org, l => l.getD 0 false || l.getD 1 false
  | .xorg, l => Bool.xor (l.getD 0 false) (l.getD 1 false)
  | .mux, l => (l.getD 0 false && !(l.getD 2 false)) || (l.getD 1 false && l.getD 2 false)
  | .muxnor, l =>
      (!(l.getD 1 false) && !(l.getD 2 false)) || (!(l.getD 0 false) && !(l.getD 2 false))

/-- Pair up the flat cover-atom list into (input-pattern, output-polarity)
rows, as the BLIF format alternates pattern and output atoms for gates with
at least one input. -/
def pairRows : List String → List (String × String)
  | p :: o :: rest => (p, o) :: pairRows rest
  | _ => []

/-- Rows of a cover over n input signals: with no inputs each atom is a bare
output polarity (empty pattern), otherwise atoms alternate pattern, output. -/
def coverRows (n : Nat) (cover : List String) : List (String × String) :=
  if n = 0 then cover.map (fun o => ("", o)) else pairRows cover

/-- Match of a single pattern character against one input bit: 1 requires
true, 0 requires false, the dash is a do-not-care. -/
def bitMatches (c : Char) (b : Bool) : Bool :=
  if c = '1' then b else if c = '0' then !b else c = '-'

/-- Match of a whole pattern row against an input-bit assignment. -/
def rowMatches (pat : String) (ins : List Bool) : Bool :=
  (pat.toList.length == ins.length) &&
    (List.zip pat.toList ins).all (fun cb => bitMatches cb.1 cb.2)

/-- Truth-table semantics of a cover: the output is 1 exactly when some row
with output polarity 1 matches the input bits (the BLIF reading of a cover;
all recognized covers use polarity 1 rows only). -/
def coverEval (rows : List (String × String)) (ins : List Bool) : Bool :=
  rows.any (fun r => r.2 == "1" && rowMatches r.1 ins)

/-- Role of a signal in the external netlist model (wire.py classes; the
model itself is outside the core, only its interface is used). -/
inductive SigKind
  | input
  | output
  | register
  | wire
  | const (v : Nat)
deriving DecidableEq

/-- A named fixed-width signal held by the block. -/
structure Sig where
  name : String
  width : Nat
  kind : SigKind
deriving DecidableEq

/-- A logic net: operator tag, operator parameters (bit-selection list for s
nets, memory identifier and optional precomputed contents for m and @ nets),
argument and destination signals referenced by name. -/
structure Net where
  op : Char
  selParam : List Nat := []
  memId : Nat := 0
  memContents : Option (List Nat) := none
  args : List String
  dests : List String
deriving DecidableEq

/-- Importer state: the two clock-name sets accumulated during import and the
block contents (signals and nets) being populated. -/
structure ImportState where
  clk_set : List String
  ff_clk_set : List String
  sigs : List Sig
  nets : List Net
deriving DecidableEq

/-- Membership of a named signal in the block. -/
def hasSig (sigs : List Sig) (n : String) : Bool :=
  sigs.any (fun s => s.name == n)

/-- twire of input_from_blif (lines 54-59): find the wire named x, creating a
default 1-bit wire when none exists yet. -/
def twire (st : ImportState) (x : String) : ImportState :=
  if hasSig st.sigs x then st
  else { st with sigs := st.sigs ++ [⟨x, 1, .wire⟩] }

/-- Sequence of twire calls in source order. -/
def twireAll (st : ImportState) (xs : List String) : ImportState :=
  xs.foldl twire st

/-- Addition to one of the clock-name sets (Python set.add). -/
def clkAdd (clk : List String) (x : String) : List String :=
  if clk.contains x then clk else clk ++ [x]

/-- Indices into the named-signal list at which each extract_cover gate
branch calls twire, in the evaluation order of the source expression (for
example the and branch runs twire on the output index 2, then indices 0
and 1). -/
def coverWireIdx : GateKind → List Nat
  | .const0 => [0]
  | .const1 => [0]
  | .buf => [1, 0]
  | .notg => [1, 0]
  | .andg => [2, 0, 1]
  | .norg => [2, 0, 1]
  | .org => [2, 0, 1]
  | .xorg => [2, 0, 1]
  | .mux => [3, 0, 2, 1, 2]
  | .muxnor => [3, 1, 2, 0, 2]

/-- Fatal importer failures: the single-model assertion of line 99 and the
unknown-cover error of lines 187-189. -/
inductive ImportErr
  | multipleModels
  | unknownCover (cover : List String)
deriving DecidableEq

/-- State effect of extract_cover: a recognized gate creates the referenced
named signals (each twire call in source order); the clock-alias branch only
extends clk_set and creates no signal; an unknown cover aborts the import.
The boolean function of the wiring a gate branch builds is embedded
separately as gateEval; the unnamed temporary wires of the compound
expressions are not tracked (no claim concerns them). -/
def processCover (st : ImportState) (nio cover : List String) :
    Except ImportErr ImportState :=
  match extract_cover st.clk_set nio cover with
  | .gate g => .ok (twireAll st ((coverWireIdx g).map (fun i => nio.getD i "")))
  | .clockAlias w => .ok { st with clk_set := clkAdd st.clk_set w }
  | .unrecognized => .error (.unknownCover cover)

/-- extract_flop (lines 191-200): record the flop clock pin, create the
register named Q_reg, wire its next value from D (an r net) and drive the
wire named Q from the register (a w net).  The Register class and the two
pyrtl connections are modelled from the spec (section 4.3: a register whose
next-value is the flop data input and whose current value drives the flop's
named output); creation order follows the source. -/
def extract_flop (st : ImportState) (D Q C : String) : ImportState :=
  let st1 := { st with ff_clk_set := clkAdd st.ff_clk_set C }
  let regname := Q ++ "_reg"
  let st2 := { st1 with sigs := st1.sigs ++ [⟨regname, 1, .register⟩] }
  let st3 := twire st2 D
  let st4 := twire st3 Q
  { st4 with nets := st4.nets ++
      [⟨'r', [], 0, none, [D], [regname]⟩, ⟨'w', [], 0, none, [regname], [Q]⟩] }

/-- Parsed BLIF commands: a cover-based net, the asynchronous-reset subckt
flop, or the synchronous latch. -/
inductive Cmd
  | name_def (nio cover : List String)
  | dffas_def (C R D Q : String)
  | dffs_def (D Q C : String)
deriving DecidableEq

/-- Dispatch of extract_commands (lines 135-145) on a single command; both
flop forms reduce to extract_flop and the reset pin of the asynchronous form
is discarded. -/
def extract_command (st : ImportState) : Cmd → Except ImportErr ImportState
  | .name_def nio cover => processCover st nio cover
  | .dffas_def C _R D Q => .ok (extract_flop st D Q C)
  | .dffs_def D Q C => .ok (extract_flop st D Q C)

/-- Left-to-right processing of the command list; the first failure aborts. -/
def extract_commands (st : ImportState) : List Cmd → Except ImportErr ImportState
  | [] => .ok st
  | c :: rest =>
      match extract_command st c with
      | .ok st2 => extract_commands st2 rest
      | .error e => .error e

/-- Python re.sub removing one trailing bracketed decimal index (at least one
digit) from a declared port name. -/
def stripIndex (s : String) : String :=
  match s.toList.reverse with
  | ']' :: rest =>
      let digits := rest.takeWhile Char.isDigit
      let rest2 := rest.dropWhile Char.isDigit
      match digits, rest2 with
      | _ :: _, '[' :: base => String.mk base.reverse
      | _, _ => s
  | _ => s

/-- Distinct names in first-occurrence order with their multiplicities,
modelling the collections.Counter over stripped port names. -/
def nameCounts (l : List String) : List (String × Nat) :=
  (l.foldl (fun acc n => if acc.contains n then acc else acc ++ [n]) []).map
    (fun n => (n, l.count n))

/-- extract_inputs (lines 103-117): group declared input names by stripped
base; per base, the name clk joins the clock set and creates no signal; with
bundling off or a single bit one 1-bit Input named by the base is added;
otherwise one multi-bit Input plus per-bit internal wires, each driven by the
corresponding bit-select of the bundle (wire_in indexing followed by the
bit-wire connection is modelled as one s net driving the bit wire). -/
def extract_inputs (merge_io_vectors : Bool) (st : ImportState)
    (input_list : List String) : ImportState :=
  (nameCounts (input_list.map stripIndex)).foldl (fun (st1 : ImportState) p =>
    let input_name := p.1
    let bitwidth := p.2
    if input_name = "clk" then
      { st1 with clk_set := clkAdd st1.clk_set input_name }
    else if !merge_io_vectors || bitwidth == 1 then
      { st1 with sigs := st1.sigs ++ [⟨input_name, 1, .input⟩] }
    else
      let st2 := { st1 with sigs := st1.sigs ++ [⟨input_name, bitwidth, .input⟩] }
      (List.range bitwidth).foldl (fun (st3 : ImportState) i =>
        let bit_name := input_name ++ "[" ++ Nat.repr i ++ "]"
        { st3 with
          sigs := st3.sigs ++ [⟨bit_name, 1, .wire⟩],
          nets := st3.nets ++ [⟨'s', [i], 0, none, [input_name], [bit_name]⟩] })
        st2) st

/-- extract_outputs (lines 119-133): symmetric to extract_inputs but without
the clock case; the multi-bit case creates per-bit wires and one concat net
driving the bundle output from them (bit order as listed in the source). -/
def extract_outputs (merge_io_vectors : Bool) (st : ImportState)
    (output_list : List String) : ImportState :=
  (nameCounts (output_list.map stripIndex)).foldl (fun (st1 : ImportState) p =>
    let output_name := p.1
    let bitwidth := p.2
    if !merge_io_vectors || bitwidth == 1 then
      { st1 with sigs := st1.sigs ++ [⟨output_name, 1, .output⟩] }
    else
      let st2 := { st1 with sigs := st1.sigs ++ [⟨output_name, bitwidth, .output⟩] }
      let st3 := (List.range bitwidth).foldl (fun (s : ImportState) i =>
        { s with sigs :=
            s.sigs ++ [⟨output_name ++ "[" ++ Nat.repr i ++ "]", 1, .wire⟩] }) st2
      { st3 with nets := st3.nets ++
          [⟨'c', [], 0, none,
            (List.range bitwidth).map
              (fun i => output_name ++ "[" ++ Nat.repr i ++ "]"),
            [output_name]⟩] }) st

/-- One parsed .model block: header name, port declarations and commands. -/
structure Model where
  name : String
  input_list : List String
  output_list : List String
  commands : List Cmd
deriving DecidableEq

/-- The working block starts empty for one import. -/
def emptyState : ImportState := ⟨[], [], [], []⟩

/-- Per-model processing order of input_from_blif lines 202-205. -/
def processModel (merge : Bool) (m : Model) : Except ImportErr ImportState :=
  let st1 := extract_inputs merge emptyState m.input_list
  let st2 := extract_outputs merge st1 m.output_list
  extract_commands st2 m.commands

/-- input_from_blif (lines 25-205) applied to the parsed model list: the
source asserts exactly one model (line 99) before any extraction runs, so a
multi-model file aborts with no partial import. -/
def input_from_blif (models : List Model) (merge_io_vectors : Bool) :
    Except ImportErr ImportState :=
  match models with
  | [m] => processModel merge_io_vectors m
  | _ => .error .multipleModels

/-- Characters allowed as the first character by the identifier regex of
_VerilogSanitizer (line 472): underscore or ASCII letter. -/
def verFirstChar (c : Char) : Bool :=
  c = '_' || ('A' ≤ c && c ≤ 'Z') || ('a' ≤ c && c ≤ 'z')

/-- Characters allowed after the first: letters, digits, underscore,
dollar. -/
def verRestChar (c : Char) : Bool :=
  verFirstChar c || ('0' ≤ c && c ≤ '9') || c = '$'

/-- Anchored match against the identifier regex of _VerilogSanitizer. -/
def matchesVerRegex (s : String) : Bool :=
  match s.toList with
  | [] => false
  | c :: rest => verFirstChar c && rest.all verRestChar

/-- Verilog reserved words of _VerilogSanitizer (lines 474-487), verbatim
including the noshowcancelledno and remos entries of the source. -/
def _verilog_reserved : List String :=
  ["always", "and", "assign", "automatic", "begin", "buf", "bufif0", "bufif1",
   "case", "casex", "casez", "cell", "cmos", "config", "deassign", "default",
   "defparam", "design", "disable", "edge", "else", "end", "endcase",
   "endconfig", "endfunction", "endgenerate", "endmodule", "endprimitive",
   "endspecify", "endtable", "endtask", "event", "for", "force", "forever",
   "fork", "function", "generate", "genvar", "highz0", "highz1", "if",
   "ifnone", "incdir", "include", "initial", "inout", "input", "instance",
   "integer", "join", "large", "liblist", "library", "localparam",
   "macromodule", "medium", "module", "nand", "negedge", "nmos", "nor",
   "noshowcancelledno", "not", "notif0", "notif1", "or", "output",
   "parameter", "pmos", "posedge", "primitive", "pull0", "pull1", "pulldown",
   "pullup", "pulsestyle_oneventglitch", "pulsestyle_ondetectglitch", "remos",
   "real", "realtime", "reg", "release", "repeat", "rnmos", "rpmos", "rtran",
   "rtranif0", "rtranif1", "scalared", "showcancelled", "signed", "small",
   "specify", "specparam", "strong0", "strong1", "supply0", "supply1",
   "table", "task", "time", "tran", "tranif0", "tranif1", "tri", "tri0",
   "tri1", "triand", "trior", "trireg", "unsigned", "use", "vectored",
   "wait", "wand", "weak0", "weak1", "while", "wire", "wor", "xnor", "xor"]

/-- Extra checks of _VerilogSanitizer (lines 494-496): not a reserved word
and at most 1024 characters long. -/
def _extra_checks (s : String) : Bool :=
  !(_verilog_reserved.contains s) && decide (s.length ≤ 1024)

/-- Combined validity test used on each name: the identifier regex plus the
subclass extra checks. -/
def isValidVer (s : String) : Bool := matchesVerRegex s && _extra_checks s

/-- Name table of one sanitizer instance (internal name to produced
identifier, newest first) and the fallback counter. -/
structure SanState where
  tbl : List (String × String)
  cnt : Nat
deriving DecidableEq

/-- Modelled from the spec: the base class _NameSanitizer lives in core.py,
outside src.  Per section 4.1, a name already seen maps to its recorded
identifier (determinism); a legal, non-reserved, short name passes through
unchanged and is recorded; any other name is rewritten to the instance's
internal fallback prefix followed by the current counter value (the
counter-based fallback of the spec), and the counter advances. -/
def make_valid_string (pre : String) (st : SanState) (name : String) :
    SanState × String :=
  match st.tbl.lookup name with
  | some v => (st, v)
  | none =>
      if isValidVer name then ({ st with tbl := (name, name) :: st.tbl }, name)
      else
        let fresh := pre ++ Nat.repr st.cnt
        ({ tbl := (name, fresh) :: st.tbl, cnt := st.cnt + 1 }, fresh)

/-- Feeding a list of names through one sanitizer instance in order,
returning the final state and the produced identifiers. -/
def sanitizeList (pre : String) (st : SanState) :
    List String → SanState × List String
  | [] => (st, [])
  | n :: rest =>
      let p := make_valid_string pre st n
      let q := sanitizeList pre p.1 rest
      (q.1, p.2 :: q.2)

/-- Fresh sanitizer state of a new instance. -/
def sanInit : SanState := ⟨[], 0⟩

/-- Name map used by an emitter: the getitem lookup of the sanitizer built
by feeding every block signal name in order (OutputToVerilog init, lines
511-515, internal fallback prefix _verout_tmp_; output_verilog_testbench,
lines 670-672, internal fallback prefix _ver_out_tmp_). -/
def sanLookup (pre : String) (names : List String) (n : String) : String :=
  (((sanitizeList pre sanInit names).1.tbl).lookup n).getD n

/-- Boolean list-prefix test (kept as its own definition so the proofs stay
elementary). -/
def hasPre : List Char → List Char → Bool
  | [], _ => true
  | _ :: _, [] => false
  | a :: as, b :: bs => if a = b then hasPre as bs else false

/-- The immutable netlist the code generator walks: signals and nets. -/
structure Block where
  sigs : List Sig
  nets : List Net
deriving DecidableEq

/-- The block populated by an import. -/
def blockOf (st : ImportState) : Block := ⟨st.sigs, st.nets⟩

/-- Unwrapping of a successful import (the empty block stands in for the
aborted case, which the theorems exclude by evaluation). -/
def importOk (models : List Model) (merge : Bool) : ImportState :=
  match input_from_blif models merge with
  | .ok st => st
  | .error _ => emptyState

/-- Vector declaration suffix of _verilog_vector_decl (lines 499-500). -/
def _verilog_vector_decl (w : Nat) : String :=
  if w = 1 then "" else "[" ++ Nat.repr (w - 1) ++ ":0]"

/-- Array length suffix of _verilog_vector_pow_decl (lines 503-504). -/
def _verilog_vector_pow_decl (w : Nat) : String :=
  if w = 1 then "" else "[" ++ Nat.repr (2 ^ w - 1) ++ ":0]"

/-- Width of the named signal in the block (defaulting to the 1-bit lazy
width when the name is absent). -/
def sigWidth (blk : Block) (n : String) : Nat :=
  (((blk.sigs.find? (fun s => s.name == n)).map Sig.width).getD 1)

/-- Input or output role test used by the port list. -/
def isIOKind : SigKind → Bool
  | .input => true
  | .output => true
  | _ => false

/-- Input role test. -/
def isInput : SigKind → Bool
  | .input => true
  | _ => false

/-- Output role test. -/
def isOutput : SigKind → Bool
  | .output => true
  | _ => false

/-- Register role test. -/
def isRegister : SigKind → Bool
  | .register => true
  | _ => false

/-- Constant role test. -/
def isConst : SigKind → Bool
  | .const _ => true
  | _ => false

/-- The name map of one generation pass: _varname (lines 522-524) after the
init loop fed every signal name of the block into one sanitizer instance
(lines 513-515). -/
def _varname (pre : String) (blk : Block) (n : String) : String :=
  sanLookup pre (blk.sigs.map Sig.name) n

/-- Names appearing in the module port list (lines 532-534): every input and
output in block order followed by the implicit clk port. -/
def headerPortNames (blk : Block) : List String :=
  (blk.sigs.filter (fun s => isIOKind s.kind)).map
    (fun s => _varname "_verout_tmp_" blk s.name) ++ ["clk"]

/-- The module header line (line 535): the module is always named
toplevel. -/
def moduleHeaderLine (blk : Block) : String :=
  "module toplevel(" ++ String.intercalate ", " (headerPortNames blk) ++ ");"

/-- Memory nets deduplicated by memory identifier, keeping one net per
identifier (lines 545-552). -/
def memoriesOf (blk : Block) : List Net :=
  (blk.nets.filter (fun n => n.op = 'm' || n.op = '@')).foldl
    (fun acc n => if acc.any (fun x => x.memId == n.memId) then acc
      else acc ++ [n]) []

/-- Identifier names declared by the header declaration section (lines
537-584): every input, the implicit clk, every output, every register, every
remaining signal, then one array per distinct memory. -/
def headerDeclNames (blk : Block) : List String :=
  ((blk.sigs.filter (fun s => isInput s.kind)).map
    (fun s => _varname "_verout_tmp_" blk s.name)) ++ ["clk"] ++
  ((blk.sigs.filter (fun s => isOutput s.kind)).map
    (fun s => _varname "_verout_tmp_" blk s.name)) ++
  ((blk.sigs.filter (fun s => isRegister s.kind)).map
    (fun s => _varname "_verout_tmp_" blk s.name)) ++
  ((blk.sigs.filter
      (fun s => !(isInput s.kind || isOutput s.kind || isRegister s.kind))).map
    (fun s => _varname "_verout_tmp_" blk s.name)) ++
  ((memoriesOf blk).map (fun n => "mem_" ++ Nat.repr n.memId))

/-- One entry of a memory initializer block: which array, the address, the
width of the width-qualified literal, and the value written. -/
structure MemInitEntry where
  mem : Nat
  addr : Nat
  lit_width : Nat
  value : Nat
deriving DecidableEq

/-- Reading precomputed memory contents at an address.  Modelled from the
spec: MemBlock and its _get_read_data live outside src; per section 3 a
memory may have precomputed contents retrievable by address. -/
def _get_read_data (contents : List Nat) (i : Nat) : Nat :=
  contents.getD i 0

/-- Data width of a memory net: the destination width for a read port, the
written operand's width for a write port (the declaration logic of lines
572-582). -/
def memDataWidth (blk : Block) (w : Net) : Nat :=
  if w.op = 'm' then sigWidth blk (w.dests.getD 0 "")
  else sigWidth blk (w.args.getD 1 "")

/-- The initializer entries the header emits (lines 590-597): for every
deduplicated memory net carrying precomputed contents, one entry per address
i below 2 to the address width (the width of the address argument signal),
writing the contents read at address i.  The Python source formats the
literal width as len(w) of the memory net; len on a LogicNet is decided by
the missing core module, so the width field is modelled from the spec: the
literal is width-qualified to the memory's data width. -/
def memInitEntries (blk : Block) : List MemInitEntry :=
  ((memoriesOf blk).filter (fun n => n.memContents.isSome)).flatMap
    (fun w => (List.range (2 ^ sigWidth blk (w.args.getD 0 ""))).map
      (fun i => ⟨w.memId, i, memDataWidth blk w,
        _get_read_data (w.memContents.getD []) i⟩))

/-- Binary operator characters of the combinational emitter (line 608). -/
def binaryOp (c : Char) : Bool :=
  c = '&' || c = '|' || c = '^' || c = '+' || c = '-' || c = '*' ||
  c = '<' || c = '>'

/-- The ternary triple emitted for a select net (lines 616-620): the
condition prints args[0], the then-branch prints args[2] and the else-branch
prints args[1] (the source notes the argument order for x is backwards from
the ternary operator). -/
def emitTernary (net : Net) : String × String × String :=
  (net.args.getD 0 "", net.args.getD 2 "", net.args.getD 1 "")

/-- Verilog semantics of a ternary triple c ? t : e under an environment
assigning each 1-bit signal a boolean. -/
def ternaryEval (env : String → Bool) (t : String × String × String) : Bool :=
  if env t.1 then env t.2.1 else env t.2.2

/-- Modelled from the spec: the select net's true-case operand.  The x net
semantics live in core.py outside src; per section 4.4 the true-case and
false-case operands are reversed from a natural ternary reading of the
declared argument order, so args[2] is the true case. -/
def xTrueCase (net : Net) : String := net.args.getD 2 ""

/-- Modelled from the spec: the select net's false-case operand args[1]. -/
def xFalseCase (net : Net) : String := net.args.getD 1 ""

/-- Text of the unconditional assign a combinational net emits, when it
emits one (lines 603-643), following the source elif order and format
strings: identity and not, binary operators, equality, ternary select,
concatenation, bit-selection; register updates, memory reads (a clocked
block, not an assign) and memory writes emit no assign here. -/
def combAssignLine (nm : String → String) (wd : String → Nat) (net : Net) :
    Option String :=
  if net.op = 'w' then
    some ("    assign " ++ nm (net.dests.getD 0 "") ++ " = " ++
      nm (net.args.getD 0 "") ++ ";")
  else if net.op = '~' then
    some ("    assign " ++ nm (net.dests.getD 0 "") ++ " = ~" ++
      nm (net.args.getD 0 "") ++ ";")
  else if binaryOp net.op then
    some ("    assign " ++ nm (net.dests.getD 0 "") ++ " = " ++
      nm (net.args.getD 0 "") ++ " " ++ String.mk [net.op] ++ " " ++
      nm (net.args.getD 1 "") ++ ";")
  else if net.op = '=' then
    some ("    assign " ++ nm (net.dests.getD 0 "") ++ " = " ++
      nm (net.args.getD 0 "") ++ " == " ++ nm (net.args.getD 1 "") ++ ";")
  else if net.op = 'x' then
    some ("    assign " ++ nm (net.dests.getD 0 "") ++ " = " ++
      nm (net.args.getD 0 "") ++ " ? " ++ nm (net.args.getD 2 "") ++ " : " ++
      nm (net.args.getD 1 "") ++ ";")
  else if net.op = 'c' then
    some ("    assign " ++ nm (net.dests.getD 0 "") ++ " = \x7b" ++
      String.intercalate ", " (net.args.map nm) ++ "\x7d;")
  else if net.op = 's' then
    some ("    assign " ++ nm (net.dests.getD 0 "") ++ " = \x7b" ++
      String.intercalate ", " (net.selParam.reverse.map (fun i =>
        if wd (net.args.getD 0 "") > 1 then
          nm (net.args.getD 0 "") ++ "[" ++ Nat.repr i ++ "]"
        else nm (net.args.getD 0 ""))) ++ "\x7d;")
  else none

/-- The whole combinational assign region (lines 599-644): one assign per
constant signal first, then one per assign-emitting net in block order. -/
def combLines (nm : String → String) (wd : String → Nat) (blk : Block) :
    List String :=
  ((blk.sigs.filter (fun s => isConst s.kind)).map (fun s =>
    "    assign " ++ nm s.name ++ " = " ++
      (match s.kind with | .const v => Nat.repr v | _ => "") ++ ";")) ++
  blk.nets.filterMap (combAssignLine nm wd)

/-- Destination signal (before renaming) of each combinational assign: the
constant signals and the first destination of each assign-emitting net. -/
def combAssignDests (blk : Block) : List String :=
  ((blk.sigs.filter (fun s => isConst s.kind)).map Sig.name) ++
  blk.nets.filterMap (fun net =>
    if (combAssignLine (fun n => n) (fun _ => 1) net).isSome then
      some (net.dests.getD 0 "")
    else none)

/-- The assignment lines inside the one sequential always block (lines
646-659): one edge-triggered assignment per register-update net and one
conditional write per memory-write net, in block order. -/
def seqAssignLines (nm : String → String) (blk : Block) : List String :=
  blk.nets.filterMap (fun net =>
    if net.op = 'r' then
      some ("        " ++ nm (net.dests.getD 0 "") ++ " <= " ++
        nm (net.args.getD 0 "") ++ ";")
    else if net.op = '@' then
      some ("        if (" ++ nm (net.args.getD 2 "") ++ ") begin\n" ++
        "                mem_" ++ Nat.repr net.memId ++ "[" ++
        nm (net.args.getD 0 "") ++ "] <= " ++ nm (net.args.getD 1 "") ++
        ";\n        end")
    else none)

/-- The testbench instantiation line (lines 690-693): the harness always
instantiates a module named toplevel, connecting each port by name. -/
def tbInstLine (blk : Block) : String :=
  "    toplevel block(" ++
    String.intercalate ", "
      (((blk.sigs.filter (fun s => isIOKind s.kind)).map
          (fun s => _varname "_ver_out_tmp_" blk s.name) ++ ["clk"]).map
        (fun w => "." ++ w ++ "(" ++ w ++ ")")) ++ ");"

/-- A chain of 2-signal buffer covers from c through the listed names. -/
def chainCmds : String → List String → List Cmd
  | _, [] => []
  | c, a :: rest => .name_def [c, a] ["1", "1"] :: chainCmds a rest

theorem list_len_zero (l : List Bool) (h : l.length = 0) : l = [] :=
  List.eq_nil_of_length_eq_zero h

theorem list_len_one (l : List Bool) (h : l.length = 1) : ∃ a, l = [a] := by
  match l, h with
  | [a], _ => exact ⟨a, rfl⟩

theorem list_len_two (l : List Bool) (h : l.length = 2) : ∃ a b, l = [a, b] := by
  match l, h with
  | [a, b], _ => exact ⟨a, b, rfl⟩

theorem list_len_three (l : List Bool) (h : l.length = 3) : ∃ a b c, l = [a, b, c] := by
  match l, h with
  | [a, b, c], _ => exact ⟨a, b, c, rfl⟩

set_option maxHeartbeats 1600000 in
/-- C1: for every cover shape recognized by the importer, the wiring built
from the named signals computes exactly the boolean function defined by that
cover's truth table, for all possible input bit combinations. -/
theorem extract_cover_matches_truth_table (clks nio cover : List String)
    (g : GateKind) (h : extract_cover clks nio cover = CoverResult.gate g)
    (ins : List Bool) (hl : ins.length = gateArity g) :
    gateEval g ins = coverEval (coverRows (gateArity g) cover) ins := by
  unfold extract_cover at h
  split_ifs at h with c0 c1 c2 k1 k2 c3 c4 c5 c6 c7 c8 c9
  · injection h with hg; subst hg; subst c0
    rw [list_len_zero ins hl]; decide
  · injection h with hg; subst hg; subst c1
    rw [list_len_zero ins hl]; decide
  · injection h with hg; subst hg; subst c2
    obtain ⟨a, rfl⟩ := list_len_one ins hl
    cases a <;> decide
  · injection h with hg; subst hg; subst c3
    obtain ⟨a, rfl⟩ := list_len_one ins hl
    cases a <;> decide
  · injection h with hg; subst hg; subst c4
    obtain ⟨a, b, rfl⟩ := list_len_two ins hl
    cases a <;> cases b <;> decide
  · injection h with hg; subst hg; subst c5
    obtain ⟨a, b, rfl⟩ := list_len_two ins hl
    cases a <;> cases b <;> decide
  · injection h with hg; subst hg; subst c6
    obtain ⟨a, b, rfl⟩ := list_len_two ins hl
    cases a <;> cases b <;> decide
  · injection h with hg; subst hg; subst c7
    obtain ⟨a, b, rfl⟩ := list_len_two ins hl
    cases a <;> cases b <;> decide
  · injection h with hg; subst hg; subst c8
    obtain ⟨a, b, c, rfl⟩ := list_len_three ins hl
    cases a <;> cases b <;> cases c <;> decide
  · injection h with hg; subst hg; subst c9
    obtain ⟨a, b, c, rfl⟩ := list_len_three ins hl
    cases a <;> cases b <;> cases c <;> decide

/-- Witness for C1: the xor cover evaluated at a concrete input. -/
theorem extract_cover_matches_truth_table_witness :
    extract_cover [] ["a", "b", "z"] ["10", "1", "01", "1"] =
      CoverResult.gate GateKind.xorg ∧
    gateEval GateKind.xorg [true, true] =
      coverEval (coverRows (gateArity GateKind.xorg) ["10", "1", "01", "1"])
        [true, true] :=
  ⟨by decide,
    extract_cover_matches_truth_table [] ["a", "b", "z"] ["10", "1", "01", "1"]
      GateKind.xorg (by decide) [true, true] (by decide)⟩

/-- C2: evaluation of the code at the failing input.  With bundling disabled,
importing declared inputs a[0], a[1], a[2] creates a single 1-bit input named
by the deduplicated stripped base a (the loop of extract_inputs iterates the
Counter keys, not the literal names), not three 1-bit inputs named a[0],
a[1], a[2] as the spec states; the enabled-bundling half behaves as
specified (one 3-bit input a plus three 1-bit wires a[0], a[1], a[2], each
driven by a bit-select of the bundle). -/
theorem extract_inputs_unbundled_collapses_base :
    (extract_inputs false emptyState ["a[0]", "a[1]", "a[2]"]).sigs =
      [⟨"a", 1, SigKind.input⟩] ∧
    (extract_inputs true emptyState ["a[0]", "a[1]", "a[2]"]).sigs =
      [⟨"a", 3, SigKind.input⟩, ⟨"a[0]", 1, SigKind.wire⟩,
       ⟨"a[1]", 1, SigKind.wire⟩, ⟨"a[2]", 1, SigKind.wire⟩] ∧
    (extract_inputs true emptyState ["a[0]", "a[1]", "a[2]"]).nets =
      [⟨'s', [0], 0, none, ["a"], ["a[0]"]⟩,
       ⟨'s', [1], 0, none, ["a"], ["a[1]"]⟩,
       ⟨'s', [2], 0, none, ["a"], ["a[2]"]⟩] := by
  refine ⟨?_, ?_, ?_⟩ <;> decide

/-- C9: importing a parsed BLIF with more than one model block fails with the
single-model internal-consistency error; the error is returned before any
extraction, so there is no partial import. -/
theorem input_from_blif_multiple_models (models : List Model) (merge : Bool)
    (h : 1 < models.length) :
    input_from_blif models merge = Except.error ImportErr.multipleModels := by
  match models, h with
  | m1 :: m2 :: rest, _ => rfl

/-- Witness for C9 at a concrete two-model list. -/
theorem input_from_blif_multiple_models_witness :
    1 < ([⟨"m1", ["x"], ["y"], []⟩, ⟨"m2", ["x"], ["y"], []⟩] : List Model).length ∧
    input_from_blif [⟨"m1", ["x"], ["y"], []⟩, ⟨"m2", ["x"], ["y"], []⟩] true =
      Except.error ImportErr.multipleModels :=
  ⟨by decide,
    input_from_blif_multiple_models
      [⟨"m1", ["x"], ["y"], []⟩, ⟨"m2", ["x"], ["y"], []⟩] true (by decide)⟩

theorem toDigitsCore_acc (f : Nat) : ∀ (n : Nat) (ds : List Char),
    Nat.toDigitsCore 10 f n ds = Nat.toDigitsCore 10 f n [] ++ ds := by
  induction f with
  | zero => intro n ds; simp [Nat.toDigitsCore]
  | succ f ih =>
      intro n ds
      simp only [Nat.toDigitsCore]
      by_cases h : n / 10 = 0
      · simp [h]
      · simp only [h, if_false]
        rw [ih (n / 10) (Nat.digitChar (n % 10) :: ds),
          ih (n / 10) [Nat.digitChar (n % 10)]]
        simp

theorem toDigitsCore_fuel : ∀ (f g n : Nat), n < f → n < g →
    Nat.toDigitsCore 10 f n [] = Nat.toDigitsCore 10 g n [] := by
  intro f
  induction f with
  | zero => intro g n h; omega
  | succ f ih =>
      intro g n hf hg
      cases g with
      | zero => omega
      | succ g =>
          simp only [Nat.toDigitsCore]
          by_cases h : n / 10 = 0
          · simp [h]
          · simp only [h, if_false]
            rw [toDigitsCore_acc f (n / 10) [Nat.digitChar (n % 10)],
              toDigitsCore_acc g (n / 10) [Nat.digitChar (n % 10)]]
            rw [ih g (n / 10) (by omega) (by omega)]

theorem toDigits_unfold (n : Nat) :
    Nat.toDigits 10 n =
      if n < 10 then [Nat.digitChar n]
      else Nat.toDigits 10 (n / 10) ++ [Nat.digitChar (n % 10)] := by
  by_cases h : n < 10
  · simp only [h, if_true, Nat.toDigits, Nat.toDigitsCore]
    rw [Nat.div_eq_of_lt h]
    simp [Nat.mod_eq_of_lt h]
  · have hdvd : ¬(n / 10 = 0) := by omega
    simp only [h, if_false, Nat.toDigits, Nat.toDigitsCore]
    simp only [hdvd, if_false]
    rw [toDigitsCore_acc n (n / 10) [Nat.digitChar (n % 10)]]
    congr 1
    rw [toDigitsCore_fuel n (n / 10 + 1) (n / 10) (by omega) (Nat.lt_succ_self _)]
    simp only [Nat.toDigitsCore]

theorem toDigits_ne_nil (n : Nat) : Nat.toDigits 10 n ≠ [] := by
  rw [toDigits_unfold]
  by_cases h : n < 10 <;> simp [h]

theorem digitChar_inj : ∀ a, a < 10 → ∀ b, b < 10 →
    Nat.digitChar a = Nat.digitChar b → a = b := by decide

theorem toDigits_inj : ∀ (n m : Nat),
    Nat.toDigits 10 n = Nat.toDigits 10 m → n = m := by
  intro n
  induction n using Nat.strong_induction_on with
  | _ n ih =>
      intro m h
      rw [toDigits_unfold n, toDigits_unfold m] at h
      by_cases hn : n < 10 <;> by_cases hm : m < 10
      · simp only [hn, hm, if_true] at h
        injection h with h1 h2
        exact digitChar_inj n hn m hm h1
      · simp only [hn, hm, if_true, if_false] at h
        have hl := congrArg List.length h
        simp only [List.length_append, List.length_cons, List.length_nil] at hl
        have hnil : Nat.toDigits 10 (m / 10) = [] := by
          apply List.eq_nil_of_length_eq_zero; omega
        exact absurd hnil (toDigits_ne_nil _)
      · simp only [hn, hm, if_true, if_false] at h
        have hl := congrArg List.length h
        simp only [List.length_append, List.length_cons, List.length_nil] at hl
        have hnil : Nat.toDigits 10 (n / 10) = [] := by
          apply List.eq_nil_of_length_eq_zero; omega
        exact absurd hnil (toDigits_ne_nil _)
      · simp only [hn, hm, if_false] at h
        obtain ⟨h1, h2⟩ := List.append_inj' h (by simp)
        have e1 : n / 10 = m / 10 := ih (n / 10) (by omega) (m / 10) h1
        have e2 : n % 10 = m % 10 := by
          apply digitChar_inj _ (by omega) _ (by omega)
          injection h2
        omega

theorem nat_repr_inj (n m : Nat) (h : Nat.repr n = Nat.repr m) : n = m :=
  toDigits_inj n m (congrArg String.data h)

theorem hasPre_append (p x : List Char) : hasPre p (p ++ x) = true := by
  induction p with
  | nil => rfl
  | cons a as ih => simp [hasPre, ih]

theorem string_data_append (a b : String) : (a ++ b).data = a.data ++ b.data := rfl

theorem string_length_append (a b : String) :
    (a ++ b).length = a.length + b.length := by
  show (a ++ b).data.length = a.data.length + b.data.length
  rw [string_data_append, List.length_append]

theorem string_append_cancel_left (p a b : String) (h : p ++ a = p ++ b) : a = b := by
  have hd : p.data ++ a.data = p.data ++ b.data := by
    rw [← string_data_append, ← string_data_append, h]
  have hab : a.data = b.data := List.append_cancel_left hd
  cases a; cases b; exact congrArg String.mk hab

theorem hasPre_fallback (pre : String) (j : Nat) :
    hasPre pre.data (pre ++ Nat.repr j).data = true := by
  rw [string_data_append]; exact hasPre_append _ _

theorem digitChar_isDigit : ∀ a, a < 10 → (Nat.digitChar a).isDigit = true := by decide

theorem toDigits_all_digits : ∀ n, ∀ c ∈ Nat.toDigits 10 n, c.isDigit = true := by
  intro n
  induction n using Nat.strong_induction_on with
  | _ n ih =>
      intro c hc
      rw [toDigits_unfold] at hc
      by_cases h : n < 10
      · simp only [h, if_true, List.mem_singleton] at hc
        subst hc; exact digitChar_isDigit n h
      · simp only [h, if_false, List.mem_append, List.mem_singleton] at hc
        rcases hc with hc | hc
        · exact ih (n / 10) (by omega) c hc
        · subst hc; exact digitChar_isDigit _ (by omega)

theorem digit_verRest (c : Char) (h : c.isDigit = true) : verRestChar c = true := by
  simp only [Char.isDigit, Bool.and_eq_true, decide_eq_true_eq] at h
  simp only [verRestChar, verFirstChar, Bool.or_eq_true, Bool.and_eq_true,
    decide_eq_true_eq]
  tauto

theorem matchesVerRegex_fallback (pre : String) (j : Nat)
    (hr : matchesVerRegex pre = true) :
    matchesVerRegex (pre ++ Nat.repr j) = true := by
  obtain ⟨d⟩ := pre
  cases d with
  | nil => exact absurd hr (by decide)
  | cons c rest =>
      have h2 : (String.mk (c :: rest)) ++ Nat.repr j =
          String.mk (c :: (rest ++ Nat.toDigits 10 j)) := by
        show String.mk ((c :: rest) ++ Nat.toDigits 10 j) = _
        simp
      rw [h2]
      have hr2 : (verFirstChar c && rest.all verRestChar) = true := hr
      show (verFirstChar c && (rest ++ Nat.toDigits 10 j).all verRestChar) = true
      simp only [Bool.and_eq_true, List.all_append, List.all_eq_true] at hr2 ⊢
      exact ⟨hr2.1, hr2.2, fun x hx => digit_verRest x (toDigits_all_digits j x hx)⟩

set_option maxRecDepth 4000 in
theorem reserved_no_underscore :
    ∀ w ∈ _verilog_reserved, ¬(w.data.head? = some '_') := by decide

theorem fallback_not_reserved (pre : String) (j : Nat)
    (hu : pre.data.head? = some '_') :
    pre ++ Nat.repr j ∉ _verilog_reserved := by
  intro hmem
  apply reserved_no_underscore _ hmem
  rw [string_data_append]
  cases hd : pre.data with
  | nil => rw [hd] at hu; exact absurd hu (by simp)
  | cons c cs =>
      rw [hd] at hu
      simp only [List.head?] at hu
      injection hu with hu
      simp [hu]

theorem fallback_length (pre : String) (j : Nat) (h13 : pre.length ≤ 13)
    (hj : j < 10000) : (pre ++ Nat.repr j).length ≤ 1024 := by
  have hb : (Nat.repr j).length ≤ 4 := Nat.repr_length j 4 (by omega) (by omega)
  rw [string_length_append]
  omega

theorem lookup_cons_ne {β : Type} (m n : String) (x : β)
    (tbl : List (String × β)) (h : ¬(n = m)) :
    ((m, x) :: tbl).lookup n = tbl.lookup n := by
  have hb : (n == m) = false := beq_eq_false_iff_ne.mpr h
  simp [List.lookup, hb]

theorem lookup_cons_self {β : Type} (n : String) (x : β)
    (tbl : List (String × β)) : ((n, x) :: tbl).lookup n = some x := by
  simp [List.lookup]

theorem make_valid_hit (pre : String) (st : SanState) (n : String) (v : String)
    (h : st.tbl.lookup n = some v) : make_valid_string pre st n = (st, v) := by
  simp [make_valid_string, h]

theorem make_valid_pass (pre : String) (st : SanState) (n : String)
    (h : st.tbl.lookup n = none) (hv : isValidVer n = true) :
    make_valid_string pre st n = ({ st with tbl := (n, n) :: st.tbl }, n) := by
  simp [make_valid_string, h, hv]

theorem make_valid_fresh (pre : String) (st : SanState) (n : String)
    (h : st.tbl.lookup n = none) (hv : ¬(isValidVer n = true)) :
    make_valid_string pre st n =
      ({ tbl := (n, pre ++ Nat.repr st.cnt) :: st.tbl, cnt := st.cnt + 1 },
        pre ++ Nat.repr st.cnt) := by
  simp [make_valid_string, h, hv]

theorem sanitizeList_cnt_mono (pre : String) : ∀ (names : List String) (st : SanState),
    st.cnt ≤ (sanitizeList pre st names).1.cnt := by
  intro names
  induction names with
  | nil => intro st; exact Nat.le_refl _
  | cons n rest ih =>
      intro st
      simp only [sanitizeList]
      refine Nat.le_trans ?_ (ih (make_valid_string pre st n).1)
      cases hm : st.tbl.lookup n with
      | some v => rw [make_valid_hit pre st n v hm]
      | none =>
          by_cases hv : isValidVer n = true
          · rw [make_valid_pass pre st n hm hv]
          · rw [make_valid_fresh pre st n hm hv]
            exact Nat.le_succ _

theorem sanitizeList_cnt_bound (pre : String) : ∀ (names : List String) (st : SanState),
    (sanitizeList pre st names).1.cnt ≤ st.cnt + names.length := by
  intro names
  induction names with
  | nil => intro st; simp [sanitizeList]
  | cons n rest ih =>
      intro st
      simp only [sanitizeList, List.length_cons]
      refine Nat.le_trans (ih (make_valid_string pre st n).1) ?_
      have hstep : (make_valid_string pre st n).1.cnt ≤ st.cnt + 1 := by
        cases hm : st.tbl.lookup n with
        | some v =>
            rw [make_valid_hit pre st n v hm]
            show st.cnt ≤ st.cnt + 1
            omega
        | none =>
            by_cases hv : isValidVer n = true
            · rw [make_valid_pass pre st n hm hv]; exact Nat.le_succ _
            · rw [make_valid_fresh pre st n hm hv]
      omega

theorem sanitizeList_lookup_pres (pre : String) :
    ∀ (names : List String) (st : SanState) (n v : String),
    st.tbl.lookup n = some v →
    (sanitizeList pre st names).1.tbl.lookup n = some v := by
  intro names
  induction names with
  | nil => intro st n v h; exact h
  | cons m rest ih =>
      intro st n v h
      simp only [sanitizeList]
      apply ih
      cases hm : st.tbl.lookup m with
      | some w => rw [make_valid_hit pre st m w hm]; exact h
      | none =>
          have hne : ¬(n = m) := by
            intro e; rw [e, hm] at h; exact Option.noConfusion h
          by_cases hv : isValidVer m = true
          · rw [make_valid_pass pre st m hm hv]
            show ((m, m) :: st.tbl).lookup n = some v
            rw [lookup_cons_ne m n m st.tbl hne]; exact h
          · rw [make_valid_fresh pre st m hm hv]
            show ((m, pre ++ Nat.repr st.cnt) :: st.tbl).lookup n = some v
            rw [lookup_cons_ne m n _ st.tbl hne]; exact h

theorem sanitizeList_lookup_valid (pre : String) :
    ∀ (names : List String) (st : SanState) (n : String),
    isValidVer n = true → n ∈ names →
    (st.tbl.lookup n = none ∨ st.tbl.lookup n = some n) →
    (sanitizeList pre st names).1.tbl.lookup n = some n := by
  intro names
  induction names with
  | nil => intro st n _ hmem; exact absurd hmem (List.not_mem_nil n)
  | cons m rest ih =>
      intro st n hv hmem hinv
      simp only [sanitizeList]
      by_cases he : n = m
      · subst he
        rcases hinv with hnone | hsome
        · rw [make_valid_pass pre st n hnone hv]
          apply sanitizeList_lookup_pres
          exact lookup_cons_self n n st.tbl
        · rw [make_valid_hit pre st n n hsome]
          exact sanitizeList_lookup_pres pre rest st n n hsome
      · have hmem2 : n ∈ rest := by
          rcases List.mem_cons.1 hmem with h | h
          · exact absurd h he
          · exact h
        apply ih _ n hv hmem2
        cases hm : st.tbl.lookup m with
        | some w => rw [make_valid_hit pre st m w hm]; exact hinv
        | none =>
            by_cases hvm : isValidVer m = true
            · rw [make_valid_pass pre st m hm hvm]
              show ((m, m) :: st.tbl).lookup n = none ∨
                ((m, m) :: st.tbl).lookup n = some n
              rw [lookup_cons_ne m n m st.tbl he]; exact hinv
            · rw [make_valid_fresh pre st m hm hvm]
              show ((m, pre ++ Nat.repr st.cnt) :: st.tbl).lookup n = none ∨
                ((m, pre ++ Nat.repr st.cnt) :: st.tbl).lookup n = some n
              rw [lookup_cons_ne m n _ st.tbl he]; exact hinv

theorem sanitizeList_shape (pre : String) :
    ∀ (names : List String) (st : SanState),
    (∀ n ∈ names, st.tbl.lookup n = none) → names.Nodup →
    ∀ o ∈ (sanitizeList pre st names).2,
      (o ∈ names ∧ isValidVer o = true) ∨
      (∃ j, st.cnt ≤ j ∧ j < (sanitizeList pre st names).1.cnt ∧
        o = pre ++ Nat.repr j) := by
  intro names
  induction names with
  | nil => intro st _ _ o ho; exact absurd ho (List.not_mem_nil o)
  | cons n rest ih =>
      intro st hlk hnd o ho
      have hn0 : st.tbl.lookup n = none := hlk n (List.mem_cons_self n rest)
      rw [List.nodup_cons] at hnd
      by_cases hv : isValidVer n = true
      · rw [sanitizeList, make_valid_pass pre st n hn0 hv] at ho ⊢
        have hlk2 : ∀ m ∈ rest, (({ st with tbl := (n, n) :: st.tbl } : SanState)).tbl.lookup m = none := by
          intro m hm
          have hne : ¬(m = n) := fun e => hnd.1 (e ▸ hm)
          show ((n, n) :: st.tbl).lookup m = none
          rw [lookup_cons_ne n m n st.tbl hne]
          exact hlk m (List.mem_cons_of_mem n hm)
        rcases List.mem_cons.1 ho with rfl | ho2
        · exact Or.inl ⟨List.mem_cons_self o rest, hv⟩
        · rcases ih _ hlk2 hnd.2 o ho2 with h | ⟨j, hj1, hj2, hj3⟩
          · exact Or.inl ⟨List.mem_cons_of_mem n h.1, h.2⟩
          · exact Or.inr ⟨j, hj1, hj2, hj3⟩
      · rw [sanitizeList, make_valid_fresh pre st n hn0 hv] at ho ⊢
        have hlk2 : ∀ m ∈ rest,
            (({ tbl := (n, pre ++ Nat.repr st.cnt) :: st.tbl, cnt := st.cnt + 1 } : SanState)).tbl.lookup m = none := by
          intro m hm
          have hne : ¬(m = n) := fun e => hnd.1 (e ▸ hm)
          show ((n, pre ++ Nat.repr st.cnt) :: st.tbl).lookup m = none
          rw [lookup_cons_ne n m _ st.tbl hne]
          exact hlk m (List.mem_cons_of_mem n hm)
        rcases List.mem_cons.1 ho with rfl | ho2
        · refine Or.inr ⟨st.cnt, Nat.le_refl _, ?_, rfl⟩
          have hmono := sanitizeList_cnt_mono pre rest
            ({ tbl := (n, pre ++ Nat.repr st.cnt) :: st.tbl, cnt := st.cnt + 1 } : SanState)
          exact Nat.lt_of_lt_of_le (Nat.lt_succ_self _) hmono
        · rcases ih _ hlk2 hnd.2 o ho2 with h | ⟨j, hj1, hj2, hj3⟩
          · exact Or.inl ⟨List.mem_cons_of_mem n h.1, h.2⟩
          · have hj1b : st.cnt + 1 ≤ j := hj1
            exact Or.inr ⟨j, by omega, hj2, hj3⟩

theorem sanitizeList_nodup (pre : String) :
    ∀ (names : List String) (st : SanState),
    (∀ n ∈ names, st.tbl.lookup n = none) → names.Nodup →
    (∀ n ∈ names, hasPre pre.data n.data = false) →
    (sanitizeList pre st names).2.Nodup := by
  intro names
  induction names with
  | nil => intro st _ _ _; simp [sanitizeList]
  | cons n rest ih =>
      intro st hlk hnd hnp
      have hn0 : st.tbl.lookup n = none := hlk n (List.mem_cons_self n rest)
      rw [List.nodup_cons] at hnd
      by_cases hv : isValidVer n = true
      · rw [sanitizeList, make_valid_pass pre st n hn0 hv]
        have hlk2 : ∀ m ∈ rest, (({ st with tbl := (n, n) :: st.tbl } : SanState)).tbl.lookup m = none := by
          intro m hm
          have hne : ¬(m = n) := fun e => hnd.1 (e ▸ hm)
          show ((n, n) :: st.tbl).lookup m = none
          rw [lookup_cons_ne n m n st.tbl hne]
          exact hlk m (List.mem_cons_of_mem n hm)
        rw [List.nodup_cons]
        constructor
        · intro hin
          rcases sanitizeList_shape pre rest _ hlk2 hnd.2 n hin with h | ⟨j, _, _, hj3⟩
          · exact hnd.1 h.1
          · have : hasPre pre.data n.data = true := by rw [hj3]; exact hasPre_fallback pre j
            rw [hnp n (List.mem_cons_self n rest)] at this
            exact Bool.noConfusion this
        · exact ih _ hlk2 hnd.2 (fun m hm => hnp m (List.mem_cons_of_mem n hm))
      · rw [sanitizeList, make_valid_fresh pre st n hn0 hv]
        have hlk2 : ∀ m ∈ rest,
            (({ tbl := (n, pre ++ Nat.repr st.cnt) :: st.tbl, cnt := st.cnt + 1 } : SanState)).tbl.lookup m = none := by
          intro m hm
          have hne : ¬(m = n) := fun e => hnd.1 (e ▸ hm)
          show ((n, pre ++ Nat.repr st.cnt) :: st.tbl).lookup m = none
          rw [lookup_cons_ne n m _ st.tbl hne]
          exact hlk m (List.mem_cons_of_mem n hm)
        rw [List.nodup_cons]
        constructor
        · intro hin
          rcases sanitizeList_shape pre rest _ hlk2 hnd.2 _ hin with h | ⟨j, hj1, _, hj3⟩
          · have hfp : hasPre pre.data (pre ++ Nat.repr st.cnt).data = true :=
              hasPre_fallback pre st.cnt
            rw [hnp _ (List.mem_cons_of_mem n h.1)] at hfp
            exact Bool.noConfusion hfp
          · have hrepr : Nat.repr st.cnt = Nat.repr j :=
              string_append_cancel_left pre _ _ hj3
            have : st.cnt = j := nat_repr_inj _ _ hrepr
            simp only [SanState.mk.injEq] at hj1
            omega
        · exact ih _ hlk2 hnd.2 (fun m hm => hnp m (List.mem_cons_of_mem n hm))

theorem contains_false_not_mem (o : String) (l : List String)
    (h : l.contains o = false) : o ∉ l := by
  intro hmem
  have hc : l.contains o = true := List.elem_eq_true_of_mem hmem
  rw [h] at hc
  exact Bool.noConfusion hc

/-- C6 counterexample: two distinct internal names fed to one Verilog
sanitizer instance can receive the same identifier, because the counter-based
fallback for an illegal name can equal a later legal name that passes through
unchanged. -/
theorem sanitizer_collision_counterexample :
    ("@" : String) ≠ "_verout_tmp_0" ∧
    (sanitizeList "_verout_tmp_" sanInit ["@", "_verout_tmp_0"]).2 =
      ["_verout_tmp_0", "_verout_tmp_0"] ∧
    ¬(sanitizeList "_verout_tmp_" sanInit ["@", "_verout_tmp_0"]).2.Nodup := by
  refine ⟨by decide, by decide, by decide⟩

/-- C6 amended: provided no internal name begins with the instance's fallback
prefix (and, for the length bound, at most 1000 names are fed), distinct
names map to pairwise distinct identifiers, every produced identifier is a
legal, non-reserved identifier of at most the maximum length, and legal
non-reserved short names map to themselves. -/
theorem sanitizer_distinct_legal (pre : String) (names : List String)
    (hr : matchesVerRegex pre = true)
    (hu : pre.data.head? = some '_')
    (h13 : pre.length ≤ 13)
    (hnd : names.Nodup)
    (hnp : ∀ n ∈ names, hasPre pre.data n.data = false)
    (hcount : names.length ≤ 1000) :
    (sanitizeList pre sanInit names).2.Nodup ∧
    (∀ o ∈ (sanitizeList pre sanInit names).2,
      matchesVerRegex o = true ∧ o ∉ _verilog_reserved ∧ o.length ≤ 1024) ∧
    (∀ n ∈ names, isValidVer n = true →
      (sanitizeList pre sanInit names).1.tbl.lookup n = some n) := by
  have hlk : ∀ n ∈ names, sanInit.tbl.lookup n = none := fun n _ => rfl
  refine ⟨sanitizeList_nodup pre names sanInit hlk hnd hnp, ?_, ?_⟩
  · intro o ho
    rcases sanitizeList_shape pre names sanInit hlk hnd o ho with
      ⟨_, hov⟩ | ⟨j, _, hj2, hj3⟩
    · have h1 : matchesVerRegex o = true ∧ _extra_checks o = true := by
        simpa [isValidVer, Bool.and_eq_true] using hov
      have h2 := h1.2
      simp only [_extra_checks, Bool.and_eq_true, Bool.not_eq_true',
        decide_eq_true_eq] at h2
      exact ⟨h1.1, contains_false_not_mem o _verilog_reserved h2.1, h2.2⟩
    · subst hj3
      have hcnt := sanitizeList_cnt_bound pre names sanInit
      have h0 : sanInit.cnt = 0 := rfl
      have hj : j < 10000 := by omega
      exact ⟨matchesVerRegex_fallback pre j hr, fallback_not_reserved pre j hu,
        fallback_length pre j h13 hj⟩
  · intro n hn hv
    exact sanitizeList_lookup_valid pre names sanInit n hv hn (Or.inl rfl)

/-- Witness for C6 amended at a concrete name list containing a legal name, a
reserved word and an illegal name. -/
theorem sanitizer_distinct_legal_witness :
    matchesVerRegex "_verout_tmp_" = true ∧
    ((sanitizeList "_verout_tmp_" sanInit ["a", "always", "b[0]"]).2.Nodup ∧
    (∀ o ∈ (sanitizeList "_verout_tmp_" sanInit ["a", "always", "b[0]"]).2,
      matchesVerRegex o = true ∧ o ∉ _verilog_reserved ∧ o.length ≤ 1024) ∧
    (∀ n ∈ (["a", "always", "b[0]"] : List String), isValidVer n = true →
      (sanitizeList "_verout_tmp_" sanInit ["a", "always", "b[0]"]).1.tbl.lookup n =
        some n)) :=
  ⟨by decide,
    sanitizer_distinct_legal "_verout_tmp_" ["a", "always", "b[0]"] (by decide)
      (by decide) (by decide) (by decide) (by decide) (by decide)⟩

/-- C7 counterexample: the HDL generator and the testbench emitter construct
separate sanitizer instances with different fallback prefixes (_verout_tmp_
at line 513 and _ver_out_tmp_ at line 670), so a reserved internal name such
as always receives two different external identifiers. -/
theorem verilog_testbench_name_counterexample :
    sanLookup "_verout_tmp_" ["always"] "always" = "_verout_tmp_0" ∧
    sanLookup "_ver_out_tmp_" ["always"] "always" = "_ver_out_tmp_0" ∧
    sanLookup "_verout_tmp_" ["always"] "always" ≠
      sanLookup "_ver_out_tmp_" ["always"] "always" := by
  refine ⟨by decide, by decide, by decide⟩

/-- C7 amended: for every signal whose name is a legal, non-reserved,
within-length identifier, the generator and testbench sanitizers agree (both
pass the name through unchanged); only illegal or reserved names diverge. -/
theorem verilog_testbench_names_agree (names : List String) (n : String)
    (hn : n ∈ names) (hv : isValidVer n = true) :
    sanLookup "_verout_tmp_" names n = sanLookup "_ver_out_tmp_" names n := by
  unfold sanLookup
  rw [sanitizeList_lookup_valid "_verout_tmp_" names sanInit n hv hn (Or.inl rfl),
    sanitizeList_lookup_valid "_ver_out_tmp_" names sanInit n hv hn (Or.inl rfl)]

/-- Witness for C7 amended at a concrete block name list. -/
theorem verilog_testbench_names_agree_witness :
    ("q" ∈ (["d", "q"] : List String)) ∧ isValidVer "q" = true ∧
    sanLookup "_verout_tmp_" ["d", "q"] "q" =
      sanLookup "_ver_out_tmp_" ["d", "q"] "q" :=
  ⟨by decide, by decide,
    verilog_testbench_names_agree ["d", "q"] "q" (by decide) (by decide)⟩

theorem string_eq_of_data (a b : String) (h : a.data = b.data) : a = b := by
  cases a; cases b; exact congrArg String.mk h

theorem string_append_assoc (a b c : String) : (a ++ b) ++ c = a ++ (b ++ c) :=
  string_eq_of_data _ _ (by
    rw [string_data_append, string_data_append, string_data_append,
      string_data_append, List.append_assoc])

/-- C4: for a select net whose condition is args[0] and whose true-case and
false-case operands are, per the mux cover semantics, args[2] and args[1],
the emitted ternary swaps the second and third argument positions and
therefore evaluates to the true-case operand exactly when the condition
holds, agreeing with the mux gate function. -/
theorem select_net_ternary_swap (s B A d : String) (env : String → Bool) :
    ternaryEval env (emitTernary ⟨'x', [], 0, none, [s, B, A], [d]⟩) =
      (if env s then env A else env B) ∧
    xTrueCase ⟨'x', [], 0, none, [s, B, A], [d]⟩ = A ∧
    xFalseCase ⟨'x', [], 0, none, [s, B, A], [d]⟩ = B ∧
    emitTernary ⟨'x', [], 0, none, [s, B, A], [d]⟩ = (s, A, B) ∧
    ternaryEval env (emitTernary ⟨'x', [], 0, none, [s, B, A], [d]⟩) =
      gateEval GateKind.mux [env B, env A, env s] := by
  refine ⟨rfl, rfl, rfl, rfl, ?_⟩
  cases hs : env s <;> cases ha : env A <;> cases hb : env B <;>
    simp [ternaryEval, emitTernary, gateEval, hs, ha, hb]

/-- C3 counterexample: importing the flip-flop command .latch d q re c and
generating HDL does emit a combinational assignment whose destination is the
signal named q (the buffer assign q = q_reg; from the wire net driving q
from the register), so the claimed zero count is wrong. -/
theorem latch_comb_assign_counterexample :
    ¬((combAssignDests (blockOf (extract_flop emptyState "d" "q" "c"))).count
        "q" = 0) ∧
    combLines
      (_varname "_verout_tmp_" (blockOf (extract_flop emptyState "d" "q" "c")))
      (sigWidth (blockOf (extract_flop emptyState "d" "q" "c")))
      (blockOf (extract_flop emptyState "d" "q" "c")) =
      ["    assign q = q_reg;"] := by
  refine ⟨by decide, by decide⟩

/-- C3 amended: .latch d q re c produces a register named q_reg whose
next-value net is wired from d and a wire net driving q from the register;
generation emits exactly one clocked assignment (q_reg <= d;) realizing the
register update and exactly one combinational assignment whose destination
is q (the buffer assign q = q_reg;), with no combinational assignment
targeting the register itself. -/
theorem latch_register_wiring :
    (extract_flop emptyState "d" "q" "c").sigs =
      [⟨"q_reg", 1, SigKind.register⟩, ⟨"d", 1, SigKind.wire⟩,
       ⟨"q", 1, SigKind.wire⟩] ∧
    (extract_flop emptyState "d" "q" "c").nets =
      [⟨'r', [], 0, none, ["d"], ["q_reg"]⟩,
       ⟨'w', [], 0, none, ["q_reg"], ["q"]⟩] ∧
    seqAssignLines
      (_varname "_verout_tmp_" (blockOf (extract_flop emptyState "d" "q" "c")))
      (blockOf (extract_flop emptyState "d" "q" "c")) =
      ["        q_reg <= d;"] ∧
    (combAssignDests (blockOf (extract_flop emptyState "d" "q" "c"))).count
      "q" = 1 ∧
    (combAssignDests (blockOf (extract_flop emptyState "d" "q" "c"))).count
      "q_reg" = 0 := by
  refine ⟨by decide, by decide, by decide, by decide, by decide⟩

/-- C8: for a block whose only (deduplicated) memory net is a read port with
precomputed contents, the generated initializer block has exactly one entry
per address below 2 to the address width, and the entry for address i writes
the contents read at i as a literal width-qualified to the memory's data
width. -/
theorem mem_initializer_correct (blk : Block) (w : Net)
    (hw : memoriesOf blk = [w]) (contents : List Nat)
    (hc : w.memContents = some contents) (k dw : Nat)
    (hk : sigWidth blk (w.args.getD 0 "") = k)
    (hdw : memDataWidth blk w = dw) :
    (memInitEntries blk).length = 2 ^ k ∧
    ∀ i, i < 2 ^ k → (memInitEntries blk).getD i ⟨0, 0, 0, 0⟩ =
      ⟨w.memId, i, dw, _get_read_data contents i⟩ := by
  have he : memInitEntries blk =
      (List.range (2 ^ k)).map
        (fun i => ⟨w.memId, i, dw, _get_read_data contents i⟩) := by
    unfold memInitEntries
    rw [hw]
    simp [List.filter, hc, Option.isSome, hk, hdw]
    rw [List.getD_eq_getElem?_getD] at hk
    rw [hk]
  rw [he]
  constructor
  · rw [List.length_map, List.length_range]
  · intro i hi
    rw [List.getD_eq_getElem _ _ (by simpa using hi)]
    simp

/-- Witness for C8: a 3-bit-address, 4-bit-data read-only memory with
contents at addresses 0..7. -/
theorem mem_initializer_correct_witness :
    memoriesOf ⟨[⟨"addr", 3, SigKind.wire⟩, ⟨"rd", 4, SigKind.wire⟩],
        [⟨'m', [], 7, some [1, 2, 3, 4, 5, 6, 7, 8], ["addr"], ["rd"]⟩]⟩ =
      [⟨'m', [], 7, some [1, 2, 3, 4, 5, 6, 7, 8], ["addr"], ["rd"]⟩] ∧
    ((memInitEntries ⟨[⟨"addr", 3, SigKind.wire⟩, ⟨"rd", 4, SigKind.wire⟩],
        [⟨'m', [], 7, some [1, 2, 3, 4, 5, 6, 7, 8], ["addr"], ["rd"]⟩]⟩).length =
      2 ^ 3 ∧
    ∀ i, i < 2 ^ 3 →
      (memInitEntries ⟨[⟨"addr", 3, SigKind.wire⟩, ⟨"rd", 4, SigKind.wire⟩],
        [⟨'m', [], 7, some [1, 2, 3, 4, 5, 6, 7, 8], ["addr"], ["rd"]⟩]⟩).getD i
          ⟨0, 0, 0, 0⟩ =
        ⟨7, i, 4, _get_read_data [1, 2, 3, 4, 5, 6, 7, 8] i⟩) :=
  ⟨by decide,
    mem_initializer_correct
      ⟨[⟨"addr", 3, SigKind.wire⟩, ⟨"rd", 4, SigKind.wire⟩],
        [⟨'m', [], 7, some [1, 2, 3, 4, 5, 6, 7, 8], ["addr"], ["rd"]⟩]⟩
      ⟨'m', [], 7, some [1, 2, 3, 4, 5, 6, 7, 8], ["addr"], ["rd"]⟩
      (by decide) [1, 2, 3, 4, 5, 6, 7, 8] (by decide) 3 4 (by decide)
      (by decide)⟩

/-- C10: the parsed model name has no effect on the populated netlist, the
generated module is always named toplevel, and the testbench always
instantiates a module named toplevel. -/
theorem model_name_has_no_effect (m : Model) (n1 n2 : String) (merge : Bool) :
    input_from_blif [{ m with name := n1 }] merge =
      input_from_blif [{ m with name := n2 }] merge ∧
    (∀ blk : Block, ∃ rest, moduleHeaderLine blk = "module toplevel(" ++ rest) ∧
    (∀ blk : Block, ∃ rest, tbInstLine blk = "    toplevel block(" ++ rest) := by
  refine ⟨rfl, fun blk => ⟨_, string_append_assoc _ _ _⟩,
    fun blk => ⟨_, string_append_assoc _ _ _⟩⟩

theorem extract_cover_buf_branch (clks : List String) (x y : String) :
    extract_cover clks [x, y] ["1", "1"] =
      (if clks.contains y then CoverResult.clockAlias x
       else if clks.contains x then CoverResult.clockAlias y
       else CoverResult.gate GateKind.buf) := rfl

theorem mem_clkAdd_self (l : List String) (x : String) : x ∈ clkAdd l x := by
  unfold clkAdd
  split_ifs with h
  · exact List.mem_of_elem_eq_true h
  · exact List.mem_append_right _ (List.mem_singleton.mpr rfl)

theorem mem_clkAdd_of_mem (l : List String) (x y : String) (h : y ∈ l) :
    y ∈ clkAdd l x := by
  unfold clkAdd
  split_ifs
  · exact h
  · exact List.mem_append_left _ h

theorem mem_of_mem_clkAdd (l : List String) (x y : String)
    (h : y ∈ clkAdd l x) : y ∈ l ∨ y = x := by
  unfold clkAdd at h
  split_ifs at h
  · exact Or.inl h
  · rcases List.mem_append.1 h with h2 | h2
    · exact Or.inl h2
    · exact Or.inr (List.mem_singleton.1 h2)

theorem chain_elided_aux : ∀ (as : List String) (st : ImportState) (c : String),
    c ∈ st.clk_set →
    ∃ st2, extract_commands st (chainCmds c as) = Except.ok st2 ∧
      st2.sigs = st.sigs ∧ st2.nets = st.nets ∧
      (∀ x ∈ st.clk_set, x ∈ st2.clk_set) ∧
      (∀ a ∈ as, a ∈ st2.clk_set) ∧
      (∀ x ∈ st2.clk_set, x ∈ st.clk_set ∨ x ∈ as) := by
  intro as
  induction as with
  | nil =>
      intro st c _
      exact ⟨st, rfl, rfl, rfl, fun x hx => hx, by simp,
        fun x hx => Or.inl hx⟩
  | cons a rest ih =>
      intro st c hc
      by_cases haM : a ∈ st.clk_set
      · have hstep : extract_command st (Cmd.name_def [c, a] ["1", "1"]) =
            Except.ok { st with clk_set := clkAdd st.clk_set c } := by
          simp [extract_command, processCover, extract_cover_buf_branch, haM]
        have hklk : clkAdd st.clk_set c = st.clk_set := by simp [clkAdd, hc]
        have hred : extract_commands st (chainCmds c (a :: rest)) =
            extract_commands st (chainCmds a rest) := by
          simp only [chainCmds, extract_commands, hstep, hklk]
        obtain ⟨st2, h1, h2, h3, h4, h5, h6⟩ := ih st a haM
        refine ⟨st2, hred ▸ h1, h2, h3, h4, ?_, ?_⟩
        · intro a2 ha2
          rcases List.mem_cons.1 ha2 with he | ha3
          · rw [he]; exact h4 a haM
          · exact h5 a2 ha3
        · intro x hx
          rcases h6 x hx with h | h
          · exact Or.inl h
          · exact Or.inr (List.mem_cons_of_mem a h)
      · have hstep : extract_command st (Cmd.name_def [c, a] ["1", "1"]) =
            Except.ok { st with clk_set := clkAdd st.clk_set a } := by
          simp [extract_command, processCover, extract_cover_buf_branch, haM, hc]
        have hred : extract_commands st (chainCmds c (a :: rest)) =
            extract_commands { st with clk_set := clkAdd st.clk_set a }
              (chainCmds a rest) := by
          simp only [chainCmds, extract_commands, hstep]
        obtain ⟨st2, h1, h2, h3, h4, h5, h6⟩ :=
          ih { st with clk_set := clkAdd st.clk_set a } a (mem_clkAdd_self _ _)
        refine ⟨st2, hred ▸ h1, h2, h3, ?_, ?_, ?_⟩
        · intro x hx
          exact h4 x (mem_clkAdd_of_mem _ _ _ hx)
        · intro a2 ha2
          rcases List.mem_cons.1 ha2 with he | ha3
          · rw [he]; exact h4 a (mem_clkAdd_self _ _)
          · exact h5 a2 ha3
        · intro x hx
          rcases h6 x hx with h | h
          · rcases mem_of_mem_clkAdd _ _ _ h with hl | he
            · exact Or.inl hl
            · rw [he]; exact Or.inr (List.mem_cons_self a rest)
          · exact Or.inr (List.mem_cons_of_mem a h)

/-- C5 counterexample: with an input named clk, a buffer cover processed
before its partner is known as a clock creates real signals, so a signal
transitively connected to clk through buffer covers (here a and b, via the
later cover clk to a) does end up declared in the generated module even
though a eventually joins the clock set. -/
theorem clock_chain_order_counterexample :
    "a" ∈ (importOk [⟨"top", ["clk", "x"], ["y"],
        [ Cmd.name_def ["a", "b"] ["1", "1"],
         Cmd.name_def ["clk", "a"] ["1", "1"]]⟩] true).clk_set ∧
    "a" ∈ (importOk [⟨"top", ["clk", "x"], ["y"],
        [ Cmd.name_def ["a", "b"] ["1", "1"],
         Cmd.name_def ["clk", "a"] ["1", "1"]]⟩] true).sigs.map Sig.name ∧
    "b" ∈ (importOk [⟨"top", ["clk", "x"], ["y"],
        [ Cmd.name_def ["a", "b"] ["1", "1"],
         Cmd.name_def ["clk", "a"] ["1", "1"]]⟩] true).sigs.map Sig.name ∧
    "a" ∈ headerDeclNames (blockOf (importOk [⟨"top", ["clk", "x"], ["y"],
        [ Cmd.name_def ["a", "b"] ["1", "1"],
         Cmd.name_def ["clk", "a"] ["1", "1"]]⟩] true)) ∧
    "b" ∈ headerDeclNames (blockOf (importOk [⟨"top", ["clk", "x"], ["y"],
        [ Cmd.name_def ["a", "b"] ["1", "1"],
         Cmd.name_def ["clk", "a"] ["1", "1"]]⟩] true)) := by
  refine ⟨by decide, by decide, by decide, by decide, by decide⟩

theorem foldl_inv {α β : Type} (P : β → Prop) (f : β → α → β)
    (hf : ∀ b a, P b → P (f b a)) :
    ∀ (l : List α) (b : β), P b → P (l.foldl f b) := by
  intro l
  induction l with
  | nil => intro b hb; exact hb
  | cons a rest ih => intro b hb; exact ih (f b a) (hf b a hb)

theorem foldl_clk_eq {α : Type} (f : ImportState → α → ImportState)
    (hf : ∀ s a, (f s a).clk_set = s.clk_set) :
    ∀ (l : List α) (st : ImportState), (l.foldl f st).clk_set = st.clk_set := by
  intro l
  induction l with
  | nil => intro st; rfl
  | cons a rest ih => intro st; rw [List.foldl_cons, ih, hf]

theorem foldl_clk_mem_pres {α : Type} (f : ImportState → α → ImportState)
    (hf : ∀ s a, (f s a).clk_set = s.clk_set) (l : List α) (st : ImportState)
    (x : String) (hx : x ∈ st.clk_set) : x ∈ (l.foldl f st).clk_set := by
  rw [foldl_clk_eq f hf]
  exact hx

theorem bracket_name_ne_clk (base : String) (i : Nat) :
    base ++ "[" ++ Nat.repr i ++ "]" ≠ "clk" := by
  intro h
  have hd : (base ++ "[" ++ Nat.repr i).data ++ [']'] = "clk".data := by
    have h2 := congrArg String.data h
    rw [string_data_append] at h2
    exact h2
  have h1 : ((base ++ "[" ++ Nat.repr i).data ++ [']']).getLast? = some ']' :=
    List.getLast?_concat _
  rw [hd] at h1
  exact absurd h1 (by decide)

theorem mem_name_ne_clk (i : Nat) : "mem_" ++ Nat.repr i ≠ "clk" := by
  intro h
  have hd := congrArg String.data h
  rw [string_data_append] at hd
  have hlen := congrArg List.length hd
  rw [List.length_append] at hlen
  have h4 : ("mem_".data).length = 4 := rfl
  have h3 : ("clk".data).length = 3 := rfl
  rw [h4, h3] at hlen
  omega

theorem extract_inputs_no_clk_sig (merge : Bool) (st : ImportState)
    (input_list : List String) (h : ∀ sg ∈ st.sigs, sg.name ≠ "clk") :
    ∀ sg ∈ (extract_inputs merge st input_list).sigs, sg.name ≠ "clk" := by
  unfold extract_inputs
  refine foldl_inv (fun s : ImportState => ∀ sg ∈ s.sigs, sg.name ≠ "clk")
    _ ?_ _ st h
  intro b p hb
  dsimp only
  split_ifs with h1 h2
  · exact hb
  · intro sg hsg
    rcases List.mem_append.1 hsg with hs | hs
    · exact hb sg hs
    · rw [List.mem_singleton] at hs
      rw [hs]
      exact h1
  · refine foldl_inv (fun s : ImportState => ∀ sg ∈ s.sigs, sg.name ≠ "clk")
      _ ?_ _ _ ?_
    · intro b2 i hb2
      dsimp only
      intro sg hsg
      rcases List.mem_append.1 hsg with hs | hs
      · exact hb2 sg hs
      · rw [List.mem_singleton] at hs
        rw [hs]
        exact bracket_name_ne_clk p.1 i
    · intro sg hsg
      rcases List.mem_append.1 hsg with hs | hs
      · exact hb sg hs
      · rw [List.mem_singleton] at hs
        rw [hs]
        exact h1

theorem foldl_clk_mem (f : ImportState → (String × Nat) → ImportState)
    (hmono : ∀ s p, ∀ x ∈ s.clk_set, x ∈ (f s p).clk_set)
    (hhit : ∀ s p, p.1 = "clk" → "clk" ∈ (f s p).clk_set) :
    ∀ (ps : List (String × Nat)) (st : ImportState),
    ("clk" ∈ ps.map Prod.fst ∨ "clk" ∈ st.clk_set) →
    "clk" ∈ (ps.foldl f st).clk_set := by
  intro ps
  induction ps with
  | nil =>
      intro st h
      rcases h with h | h
      · exact absurd h (List.not_mem_nil _)
      · exact h
  | cons p rest ih =>
      intro st h
      rw [List.foldl_cons]
      apply ih
      rcases h with h | h
      · rw [List.map_cons] at h
        rcases List.mem_cons.1 h with he | hr
        · exact Or.inr (hhit st p he.symm)
        · exact Or.inl hr
      · exact Or.inr (hmono st p _ h)

theorem mem_dedup_aux : ∀ (l : List String) (acc : List String) (x : String),
    (x ∈ l ∨ x ∈ acc) →
    x ∈ l.foldl (fun acc2 n => if acc2.contains n then acc2 else acc2 ++ [n]) acc := by
  intro l
  induction l with
  | nil =>
      intro acc x h
      rcases h with h | h
      · exact absurd h (List.not_mem_nil _)
      · exact h
  | cons n rest ih =>
      intro acc x h
      rw [List.foldl_cons]
      apply ih
      split_ifs with hc
      · rcases h with h | h
        · rcases List.mem_cons.1 h with he | hr
          · right; rw [he]; exact List.mem_of_elem_eq_true hc
          · left; exact hr
        · right; exact h
      · rcases h with h | h
        · rcases List.mem_cons.1 h with he | hr
          · right; rw [he]
            exact List.mem_append_right _ (List.mem_singleton.mpr rfl)
          · left; exact hr
        · right; exact List.mem_append_left _ h

theorem extract_inputs_clk_in_set (merge : Bool) (st : ImportState)
    (input_list : List String) (h : "clk" ∈ input_list.map stripIndex) :
    "clk" ∈ (extract_inputs merge st input_list).clk_set := by
  unfold extract_inputs
  apply foldl_clk_mem
  · intro s p x hx
    dsimp only
    split_ifs with h1 h2
    · exact mem_clkAdd_of_mem _ _ _ hx
    · exact hx
    · apply foldl_clk_mem_pres
      · intro s2 i
        rfl
      · exact hx
  · intro s p hp
    dsimp only
    rw [if_pos hp, hp]
    exact mem_clkAdd_self _ _
  · left
    unfold nameCounts
    exact List.mem_map.2 ⟨("clk", (input_list.map stripIndex).count "clk"),
      List.mem_map.2 ⟨"clk", mem_dedup_aux _ [] "clk" (Or.inl h), rfl⟩, rfl⟩

theorem varname_valid (blk : Block) (n : String)
    (hn : n ∈ blk.sigs.map Sig.name) (hv : isValidVer n = true) :
    _varname "_verout_tmp_" blk n = n := by
  unfold _varname sanLookup
  rw [sanitizeList_lookup_valid "_verout_tmp_" (blk.sigs.map Sig.name) sanInit
    n hv hn (Or.inl rfl)]
  rfl

theorem count_clk_map_zero (blk : Block) (sl : List Sig)
    (hsub : ∀ s ∈ sl, s ∈ blk.sigs)
    (hval : ∀ s ∈ blk.sigs, isValidVer s.name = true)
    (hnc : "clk" ∉ blk.sigs.map Sig.name) :
    (sl.map (fun s => _varname "_verout_tmp_" blk s.name)).count "clk" = 0 := by
  rw [List.count_eq_zero]
  intro hmem
  rcases List.mem_map.1 hmem with ⟨s, hs, hname⟩
  have hsig := hsub s hs
  have hmm : s.name ∈ blk.sigs.map Sig.name := List.mem_map_of_mem _ hsig
  rw [varname_valid blk s.name hmm (hval s hsig)] at hname
  exact hnc (hname ▸ hmm)

theorem header_clk_once (blk : Block)
    (hval : ∀ s ∈ blk.sigs, isValidVer s.name = true)
    (hnc : "clk" ∉ blk.sigs.map Sig.name) :
    (headerPortNames blk).count "clk" = 1 ∧
    (headerDeclNames blk).count "clk" = 1 := by
  have hio := count_clk_map_zero blk (blk.sigs.filter (fun s => isIOKind s.kind))
    (fun s hs => List.mem_of_mem_filter hs) hval hnc
  have hin := count_clk_map_zero blk (blk.sigs.filter (fun s => isInput s.kind))
    (fun s hs => List.mem_of_mem_filter hs) hval hnc
  have hout := count_clk_map_zero blk (blk.sigs.filter (fun s => isOutput s.kind))
    (fun s hs => List.mem_of_mem_filter hs) hval hnc
  have hreg := count_clk_map_zero blk
    (blk.sigs.filter (fun s => isRegister s.kind))
    (fun s hs => List.mem_of_mem_filter hs) hval hnc
  have hwire := count_clk_map_zero blk
    (blk.sigs.filter
      (fun s => !(isInput s.kind || isOutput s.kind || isRegister s.kind)))
    (fun s hs => List.mem_of_mem_filter hs) hval hnc
  have hmem0 : (((memoriesOf blk).map
      (fun n => "mem_" ++ Nat.repr n.memId))).count "clk" = 0 := by
    rw [List.count_eq_zero]
    intro hmem
    rcases List.mem_map.1 hmem with ⟨n, _, hn⟩
    exact mem_name_ne_clk n.memId hn
  constructor
  · unfold headerPortNames
    rw [List.count_append, hio]
    decide
  · unfold headerDeclNames
    simp only [List.count_append]
    rw [hin, hout, hreg, hwire, hmem0]
    decide

/-- C5 amended: an input named clk joins the clock set and never becomes a
block signal; for a block whose signal names are legal identifiers not
containing clk, the module port list and the declaration section each
mention clk exactly once (the implicit clock port the header appends); and
a chain of buffer covers processed in forward order (each cover seen after
its clock-side signal is already in the clock set) adds every chain member
to the clock set while creating no signal and no net, so the generated
ports and declarations are exactly those of the block without the chain. -/
theorem clock_chain_elided :
    (∀ (merge : Bool) (st : ImportState) (input_list : List String),
      (∀ sg ∈ st.sigs, sg.name ≠ "clk") →
      "clk" ∉ (extract_inputs merge st input_list).sigs.map Sig.name) ∧
    (∀ (merge : Bool) (st : ImportState) (input_list : List String),
      "clk" ∈ input_list.map stripIndex →
      "clk" ∈ (extract_inputs merge st input_list).clk_set) ∧
    (∀ blk : Block, (∀ s ∈ blk.sigs, isValidVer s.name = true) →
      "clk" ∉ blk.sigs.map Sig.name →
      (headerPortNames blk).count "clk" = 1 ∧
      (headerDeclNames blk).count "clk" = 1) ∧
    (∀ (st : ImportState) (c : String) (as : List String), c ∈ st.clk_set →
      ∃ st2, extract_commands st (chainCmds c as) = Except.ok st2 ∧
        st2.sigs = st.sigs ∧ st2.nets = st.nets ∧
        (∀ a ∈ as, a ∈ st2.clk_set) ∧
        (∀ a ∈ as, a ∉ st.sigs.map Sig.name → a ∉ st2.sigs.map Sig.name) ∧
        headerDeclNames (blockOf st2) = headerDeclNames (blockOf st) ∧
        headerPortNames (blockOf st2) = headerPortNames (blockOf st)) := by
  refine ⟨?_, ?_, ?_, ?_⟩
  · intro merge st input_list h hmem
    rcases List.mem_map.1 hmem with ⟨sg, hsg, hname⟩
    exact extract_inputs_no_clk_sig merge st input_list h sg hsg hname
  · exact fun merge st l h => extract_inputs_clk_in_set merge st l h
  · exact fun blk hv hn => header_clk_once blk hv hn
  · intro st c as hc
    obtain ⟨st2, h1, h2, h3, _, h5, h6⟩ := chain_elided_aux as st c hc
    refine ⟨st2, h1, h2, h3, h5, ?_, ?_, ?_⟩
    · intro a _ hnm
      rw [h2]
      exact hnm
    · unfold blockOf
      rw [h2, h3]
    · unfold blockOf
      rw [h2, h3]

/-- Witness for C5 amended: a clk input among the declared inputs, the
imported two-signal block, and a forward chain clk to p1 to p2. -/
theorem clock_chain_elided_witness :
    ((∀ sg ∈ emptyState.sigs, sg.name ≠ "clk") ∧
      "clk" ∉ (extract_inputs true emptyState ["clk", "x"]).sigs.map Sig.name) ∧
    ("clk" ∈ (["clk", "x"] : List String).map stripIndex ∧
      "clk" ∈ (extract_inputs true emptyState ["clk", "x"]).clk_set) ∧
    ((∀ s ∈ (blockOf (importOk [⟨"top", ["clk", "x"], ["y"], []⟩] true)).sigs,
        isValidVer s.name = true) ∧
      "clk" ∉ (blockOf (importOk [⟨"top", ["clk", "x"], ["y"], []⟩] true)).sigs.map
        Sig.name ∧
      (headerPortNames
        (blockOf (importOk [⟨"top", ["clk", "x"], ["y"], []⟩] true))).count
        "clk" = 1 ∧
      (headerDeclNames
        (blockOf (importOk [⟨"top", ["clk", "x"], ["y"], []⟩] true))).count
        "clk" = 1) ∧
    ("clk" ∈ (importOk [⟨"top", ["clk", "x"], ["y"], []⟩] true).clk_set ∧
      ∃ st2, extract_commands (importOk [⟨"top", ["clk", "x"], ["y"], []⟩] true)
          (chainCmds "clk" ["p1", "p2"]) = Except.ok st2 ∧
        st2.sigs = (importOk [⟨"top", ["clk", "x"], ["y"], []⟩] true).sigs ∧
        st2.nets = (importOk [⟨"top", ["clk", "x"], ["y"], []⟩] true).nets ∧
        (∀ a ∈ (["p1", "p2"] : List String), a ∈ st2.clk_set) ∧
        (∀ a ∈ (["p1", "p2"] : List String),
          a ∉ (importOk [⟨"top", ["clk", "x"], ["y"], []⟩] true).sigs.map Sig.name →
          a ∉ st2.sigs.map Sig.name) ∧
        headerDeclNames (blockOf st2) =
          headerDeclNames (blockOf (importOk [⟨"top", ["clk", "x"], ["y"], []⟩] true)) ∧
        headerPortNames (blockOf st2) =
          headerPortNames (blockOf (importOk [⟨"top", ["clk", "x"], ["y"], []⟩] true))) :=
  ⟨⟨by decide, clock_chain_elided.1 true emptyState ["clk", "x"] (by decide)⟩,
   ⟨by decide, clock_chain_elided.2.1 true emptyState ["clk", "x"] (by decide)⟩,
   ⟨by decide, by decide,
    (clock_chain_elided.2.2.1
      (blockOf (importOk [⟨"top", ["clk", "x"], ["y"], []⟩] true))
      (by decide) (by decide)).1,
    (clock_chain_elided.2.2.1
      (blockOf (importOk [⟨"top", ["clk", "x"], ["y"], []⟩] true))
      (by decide) (by decide)).2⟩,
   ⟨by decide,
    clock_chain_elided.2.2.2 (importOk [⟨"top", ["clk", "x"], ["y"], []⟩] true)
      "clk" ["p1", "p2"] (by decide)⟩⟩

end PyRTL
